import Mathlib

/-!
Verification of the kitstarter velocity-range / crossfade engine.

The development shallowly embeds the two core modules of the repository:

* `starter_kits.py` — the `StarterKit` / `StarterInstrument` / `StarterSample`
  data model and its text serialization;
* `gui/samples_widget.py` — the boundary editor (`SampleTrack.mouse_event`),
  the overlap detector (`SampleTrack.overlap`, `SamplesWidget.find_overlaps`),
  the crossfade curve builder (`SampleTrack.update_vtpoints`), the snap
  adjustment (`SamplesWidget.slot_value_changed`) and the spread layout
  (`SamplesWidget.slot_spread`).

Python `int` values are modelled as `ℤ`, Python `float` values as `ℚ`
(the numbers handled here — velocities scaled by `width/127`, half-integer
centers, normalized amplitudes `v/127` — are exactly representable, so the
rational model matches the float computation on every input exercised below).
Python's `round` (round-half-to-even) on an exact fraction `a / b` is modelled
by the integer function `rdiv a b`.  Python dicts are modelled as
insertion-ordered association lists.  Exceptions are modelled with
`Except` / `Option` error components.
-/

namespace Kitstarter

/-- Python's built-in `round` applied to the exact fraction `a / b` (`b > 0`):
round half to even.  `f` is the floor of the quotient and `r` the remainder;
the fraction is `< 1/2`, `> 1/2` or exactly `1/2` according as `2r < b`,
`2r > b` or `2r = b`. -/
def rdiv (a b : ℤ) : ℤ :=
  if 2 * (a - a.fdiv b * b) < b then a.fdiv b
  else if b < 2 * (a - a.fdiv b * b) then a.fdiv b + 1
  else if a.fdiv b % 2 = 0 then a.fdiv b else a.fdiv b + 1

/-- `z` is the value of round-half-to-even at the real (rational) number `q`:
either `z` is strictly the nearest integer, or `q` is a half-integer and `z`
is the even neighbour. -/
def isRoundHalfEven (q : ℚ) (z : ℤ) : Prop :=
  |q - (z : ℚ)| < 1 / 2 ∨ (|q - (z : ℚ)| = 1 / 2 ∧ z % 2 = 0)

theorem rdiv_isRoundHalfEven (a b : ℤ) (hb : 0 < b) :
    isRoundHalfEven ((a : ℚ) / (b : ℚ)) (rdiv a b) := by
  have hbne : b ≠ 0 := ne_of_gt hb
  have hbQ : (0 : ℚ) < (b : ℚ) := by exact_mod_cast hb
  have key : ∀ f r : ℤ, a = f * b + r → 0 ≤ r → r < b →
      isRoundHalfEven ((a : ℚ) / (b : ℚ))
        (if 2 * r < b then f else if b < 2 * r then f + 1
         else if f % 2 = 0 then f else f + 1) := by
    intro f r hfr hr0 hrb
    have hrQ0 : (0 : ℚ) ≤ (r : ℚ) := by exact_mod_cast hr0
    have hrQb : (r : ℚ) < (b : ℚ) := by exact_mod_cast hrb
    have hq : (a : ℚ) / (b : ℚ) = (f : ℚ) + (r : ℚ) / (b : ℚ) := by
      rw [hfr]
      push_cast
      field_simp
    have ef : (a : ℚ) / (b : ℚ) - (f : ℚ) = (r : ℚ) / (b : ℚ) := by
      rw [hq]; ring
    have ef1 : (a : ℚ) / (b : ℚ) - ((f : ℚ) + 1) = -(((b : ℚ) - (r : ℚ)) / (b : ℚ)) := by
      rw [hq]
      field_simp
      ring
    split_ifs with h1 h2 h3
    · left
      have h1Q : 2 * (r : ℚ) < (b : ℚ) := by exact_mod_cast h1
      rw [ef, abs_of_nonneg (by positivity), div_lt_iff₀ hbQ]
      linarith
    · left
      have h2Q : (b : ℚ) < 2 * (r : ℚ) := by exact_mod_cast h2
      push_cast
      rw [ef1, abs_neg, abs_of_nonneg (div_nonneg (by linarith) hbQ.le), div_lt_iff₀ hbQ]
      linarith
    · right
      have htie : 2 * r = b := by omega
      have htieQ : 2 * (r : ℚ) = (b : ℚ) := by exact_mod_cast htie
      refine ⟨?_, h3⟩
      rw [ef, abs_of_nonneg (by positivity), div_eq_iff (ne_of_gt hbQ)]
      linarith
    · right
      have htie : 2 * r = b := by omega
      have htieQ : 2 * (r : ℚ) = (b : ℚ) := by exact_mod_cast htie
      constructor
      · push_cast
        rw [ef1, abs_neg, abs_of_nonneg (div_nonneg (by linarith) hbQ.le),
          div_eq_iff (ne_of_gt hbQ)]
        linarith
      · omega
  have hfd : a.fdiv b = a / b := Int.fdiv_eq_ediv a hb.le
  have hmod : a - a.fdiv b * b = a % b := by
    rw [hfd, Int.emod_def]
    ring
  have hr0 : 0 ≤ a - a.fdiv b * b := by
    rw [hmod]; exact Int.emod_nonneg a hbne
  have hrb : a - a.fdiv b * b < b := by
    rw [hmod]; exact Int.emod_lt_of_pos a hb
  have := key (a.fdiv b) (a - a.fdiv b * b) (by ring) hr0 hrb
  simpa [rdiv] using this

theorem isRoundHalfEven_unique (q : ℚ) (z₁ z₂ : ℤ)
    (h₁ : isRoundHalfEven q z₁) (h₂ : isRoundHalfEven q z₂) : z₁ = z₂ := by
  have d₁ : |q - (z₁ : ℚ)| ≤ 1 / 2 := by
    rcases h₁ with h | h
    · exact le_of_lt h
    · exact le_of_eq h.1
  have d₂ : |q - (z₂ : ℚ)| ≤ 1 / 2 := by
    rcases h₂ with h | h
    · exact le_of_lt h
    · exact le_of_eq h.1
  have t₁ := abs_le.mp d₁
  have t₂ := abs_le.mp d₂
  have hd : |(z₁ : ℚ) - (z₂ : ℚ)| ≤ 1 := by
    rw [abs_le]
    constructor <;> linarith [t₁.1, t₁.2, t₂.1, t₂.2]
  have hdz : |z₁ - z₂| ≤ 1 := by
    have : |((z₁ - z₂ : ℤ) : ℚ)| ≤ 1 := by push_cast; exact hd
    exact_mod_cast this
  rcases abs_le.mp hdz with ⟨hlo, hhi⟩
  by_contra hne
  have heven : ∀ z : ℤ, isRoundHalfEven q z → q - (z : ℚ) = 1 / 2 ∨ q - (z : ℚ) = -(1 / 2) →
      z % 2 = 0 := by
    intro z hz hcase
    have habs : |q - (z : ℚ)| = 1 / 2 := by
      rcases hcase with h | h
      · rw [h, abs_of_nonneg (by norm_num)]
      · rw [h, abs_neg, abs_of_nonneg (by norm_num)]
    rcases hz with h | h
    · rw [habs] at h
      norm_num at h
    · exact h.2
  have hcase : z₂ = z₁ + 1 ∨ z₂ = z₁ - 1 := by omega
  rcases hcase with hc | hc
  · -- q is pinned to the half-integer z₁ + 1/2; both z₁ and z₂ must be even
    have hz2Q : (z₂ : ℚ) = (z₁ : ℚ) + 1 := by rw [hc]; push_cast; ring
    have hq1 : q - (z₁ : ℚ) = 1 / 2 := by
      have := t₂.1
      rw [hz2Q] at this
      linarith [t₁.2]
    have hq2 : q - (z₂ : ℚ) = -(1 / 2) := by
      rw [hz2Q]
      linarith
    have he₁ := heven z₁ h₁ (Or.inl hq1)
    have he₂ := heven z₂ h₂ (Or.inr hq2)
    omega
  · have hz2Q : (z₂ : ℚ) = (z₁ : ℚ) - 1 := by rw [hc]; push_cast; ring
    have hq1 : q - (z₁ : ℚ) = -(1 / 2) := by
      have := t₂.2
      rw [hz2Q] at this
      linarith [t₁.1]
    have hq2 : q - (z₂ : ℚ) = 1 / 2 := by
      rw [hz2Q]
      linarith
    have he₁ := heven z₁ h₁ (Or.inr hq1)
    have he₂ := heven z₂ h₂ (Or.inl hq2)
    omega

theorem rdiv_half_bounds (a b : ℤ) (hb : 0 < b) :
    (a : ℚ) / (b : ℚ) - 1 / 2 ≤ (rdiv a b : ℚ) ∧
      (rdiv a b : ℚ) ≤ (a : ℚ) / (b : ℚ) + 1 / 2 := by
  have h := rdiv_isRoundHalfEven a b hb
  have habs : |(a : ℚ) / (b : ℚ) - (rdiv a b : ℚ)| ≤ 1 / 2 := by
    rcases h with h | h
    · exact le_of_lt h
    · exact le_of_eq h.1
  rcases abs_le.mp habs with ⟨h1, h2⟩
  constructor <;> linarith

theorem rdiv_nonneg (a b : ℤ) (hb : 0 < b) (ha : 0 ≤ a) : 0 ≤ rdiv a b := by
  have h := (rdiv_half_bounds a b hb).1
  have hbQ : (0 : ℚ) < (b : ℚ) := by exact_mod_cast hb
  have haQ : (0 : ℚ) ≤ (a : ℚ) := by exact_mod_cast ha
  have : (-1 : ℚ) < (rdiv a b : ℚ) := by
    have : (0 : ℚ) ≤ (a : ℚ) / (b : ℚ) := by positivity
    linarith
  have : (-1 : ℤ) < rdiv a b := by exact_mod_cast this
  omega

/-- An integer below a rational bound `c + 1/2` is at most `c`. -/
theorem int_le_of_le_add_half (z c : ℤ) (h : (z : ℚ) ≤ (c : ℚ) + 1 / 2) : z ≤ c := by
  have : (z : ℚ) < (c : ℚ) + 1 := by linarith
  have : z < c + 1 := by exact_mod_cast this
  omega

/-- An integer above a rational bound `c - 1/2` is at least `c`. -/
theorem int_ge_of_ge_sub_half (z c : ℤ) (h : (c : ℚ) - 1 / 2 ≤ (z : ℚ)) : c ≤ z := by
  have : (c : ℚ) - 1 < (z : ℚ) := by linarith
  have : c - 1 < z := by exact_mod_cast this
  omega

-- -----------------------------------------------------------------
-- starter_kits.py : data model

inductive PyError
  | runtimeError
  | indexError
  | attributeError
deriving DecidableEq, Repr

/-- `Velcurve = namedtuple('Velcurve', ['velocity', 'amplitude'])`. -/
structure Velcurve where
  velocity : ℤ
  amplitude : ℚ
deriving DecidableEq, Repr

/-- The mutable state of a `StarterSample` (`_lovel`, `_hivel`, `_volume`,
`_vtpoints`, `dirty`, plus the identifying `path` and `pitch`). -/
structure StarterSample where
  path : String
  pitch : ℤ
  lovel : ℤ
  hivel : ℤ
  volume : ℚ
  vtpoints : List Velcurve
  dirty : Bool
deriving DecidableEq, Repr

/-- A POSIX path is absolute iff it starts with `/`. -/
def isAbs (path : String) : Bool := path.data.head? == some '/'

/-- Model of `os.path.abspath` (external library): a path starting with `/`
is already absolute, otherwise the current working directory is prefixed.
Normalization of `.`/`..` segments is not exercised by any claim and is
omitted. -/
def abspath (cwd path : String) : String :=
  if isAbs path then path else cwd ++ ("/") ++ path

/-- `StarterSample.__init__`: `self.path = abspath(path)`, `lovel=0`,
`hivel=127`, `volume=0.0`, `vtpoints=[]`, `dirty=False`. -/
def StarterSample.init (cwd path : String) (pitch : ℤ) : StarterSample :=
  ⟨abspath cwd path, pitch, 0, 127, 0, [], false⟩

/-- The `lovel` property setter: assigns and marks the sample dirty. -/
def setLovel (s : StarterSample) (value : ℤ) : StarterSample :=
  { s with lovel := value, dirty := true }

/-- The `hivel` property setter: assigns and marks the sample dirty. -/
def setHivel (s : StarterSample) (value : ℤ) : StarterSample :=
  { s with hivel := value, dirty := true }

/-- The `volume` property setter: assigns and marks the sample dirty. -/
def setVolume (s : StarterSample) (value : ℚ) : StarterSample :=
  { s with volume := value, dirty := true }

/-- The `vtpoints` property setter: assigns and marks the sample dirty. -/
def setVtpoints (s : StarterSample) (value : List Velcurve) : StarterSample :=
  { s with vtpoints := value, dirty := true }

/-- An instrument: a pitch and the `samples` dict (path → sample), modelled
as an insertion-ordered association list.  The display-only fields
(`inst_id`, `name`, `note_name`), looked up in the external pitch catalog,
carry no behaviour and are omitted. -/
structure StarterInstrument where
  pitch : ℤ
  samples : List (String × StarterSample)
deriving DecidableEq, Repr

def mkStarterInstrument (pitch : ℤ) : StarterInstrument := ⟨pitch, []⟩

/-- `key in dict` on the samples dict. -/
def dictContains (m : List (String × StarterSample)) (k : String) : Bool :=
  m.any (fun e => e.1 == k)

/-- `StarterInstrument.has_sample`: `abspath(path) in self.samples`. -/
def has_sample (cwd : String) (inst : StarterInstrument) (path : String) : Bool :=
  dictContains inst.samples (abspath cwd path)

/-- `StarterInstrument.add_sample`: normalizes the path with `abspath`,
raises `RuntimeError` if it is already a key, otherwise inserts a fresh
`StarterSample` under it.  The returned pair is (instrument state after the
call, outcome). -/
def add_sample (cwd : String) (inst : StarterInstrument) (path : String) :
    StarterInstrument × Except PyError StarterSample :=
  let p := abspath cwd path
  if dictContains inst.samples p then (inst, Except.error PyError.runtimeError)
  else
    let s := StarterSample.init cwd p inst.pitch
    ({ inst with samples := inst.samples ++ [(p, s)] }, Except.ok s)

/-- `StarterInstrument.remove_sample`: raises `IndexError` when the *given*
path string is not a key (no `abspath` normalization), otherwise deletes it. -/
def remove_sample (inst : StarterInstrument) (path : String) :
    StarterInstrument × Option PyError :=
  if dictContains inst.samples path then
    ({ inst with samples := inst.samples.filter (fun e => e.1 ≠ path) }, none)
  else (inst, some PyError.indexError)

/-- A kit: the pitch-keyed `instruments` dict, modelled as an association
list (47 fixed pitch slots in the real program; only non-emptiness matters
to the claims). -/
structure StarterKit where
  instruments : List (ℤ × StarterInstrument)
deriving DecidableEq, Repr

/-- In `StarterKit.samples`, `for instrument in self.instruments` iterates
the dict, which in Python yields its *keys* — the integer pitches.  The
attribute access `instrument.samples` is therefore performed on an `int` and
raises `AttributeError`. -/
def int_attr_samples (_pitch : ℤ) : Except PyError (List (String × StarterSample)) :=
  Except.error PyError.attributeError

/-- The body of the `StarterKit.samples` generator, evaluated eagerly: for
each iterated key, `yield from instrument.samples.values()`. -/
def kit_samples_from : List ℤ → Except PyError (List StarterSample)
  | [] => Except.ok []
  | k :: ks =>
    match int_attr_samples k with
    | Except.error e => Except.error e
    | Except.ok m =>
      match kit_samples_from ks with
      | Except.error e => Except.error e
      | Except.ok rest => Except.ok (m.map (fun e => e.2) ++ rest)

/-- `StarterKit.samples` (consumed eagerly). -/
def kit_samples (kit : StarterKit) : Except PyError (List StarterSample) :=
  kit_samples_from (kit.instruments.map (fun e => e.1))

/-- `StarterKit.is_dirty`: `any(sample.dirty for sample in self.samples())`. -/
def kit_is_dirty (kit : StarterKit) : Except PyError Bool :=
  match kit_samples kit with
  | Except.error e => Except.error e
  | Except.ok ss => Except.ok (ss.any (fun s => s.dirty))

/-- `StarterKit.clear_dirty`: iterates `self.samples()` clearing the dirty
flags; when the iteration raises, the error propagates (the loop body never
runs, so on success — only possible with an empty instruments dict — the kit
is unchanged). -/
def kit_clear_dirty (kit : StarterKit) : Except PyError StarterKit :=
  match kit_samples kit with
  | Except.error e => Except.error e
  | Except.ok _ => Except.ok kit

-- -----------------------------------------------------------------
-- starter_kits.py : StarterSample.write (serializer)

/-- Pad a digit string on the left with zeros up to `digits` characters. -/
def zeroPad (digits : ℕ) (s : String) : String :=
  ⟨List.replicate (digits - s.length) '0' ++ s.data⟩

/-- Python `f'{q:.<digits>f}'` on the exact rational `q`: round
`q · 10^digits` half-to-even and print with a fixed number of decimals. -/
def fmtFixed (digits : ℕ) (q : ℚ) : String :=
  let scaled := rdiv (q.num * (10 : ℤ) ^ digits) (q.den : ℤ)
  let sign := if scaled < 0 then ("-") else ("")
  let n := scaled.natAbs
  sign ++ Nat.repr (n / 10 ^ digits) ++ (".") ++ zeroPad digits (Nat.repr (n % 10 ^ digits))

/-- `f'amp_velcurve_{point.velocity}={point.amplitude:.1f}\n'`. -/
def ampLine (p : Velcurve) : String :=
  ("amp_velcurve_") ++ p.velocity.repr ++ ("=") ++ fmtFixed 1 p.amplitude ++ ("\n")

/-- Each line kind the serializer emits starts with a distinct character
(`<`, `s`, `v`, `l`, `h`, `a`, newline); `headIs c` recognizes a line kind
by that first character. -/
def headIs (c : Char) (l : String) : Bool := l.data.head? == some c

/-- `StarterSample.write`: the list of strings written to the stream, one
entry per `stream.write` call.  `volume` is emitted only when non-zero (2
decimals), `lovel` only when `> 0`, `hivel` only when `< 127`, then one
`amp_velcurve_<velocity>=` line per stored curve point (1 decimal). -/
def sample_write (s : StarterSample) : List String :=
  [("<region>\n"), ("sample=" ++ s.path ++ "\n")]
    ++ (if s.volume ≠ 0 then [("volume=" ++ fmtFixed 2 s.volume ++ "\n")] else [])
    ++ (if s.lovel > 0 then [("lovel=" ++ s.lovel.repr ++ "\n")] else [])
    ++ (if s.hivel < 127 then [("hivel=" ++ s.hivel.repr ++ "\n")] else [])
    ++ s.vtpoints.map ampLine
    ++ [("\n")]

-- -----------------------------------------------------------------
-- gui/samples_widget.py : constants and coordinate conversion

def FEATURE_LOVEL : ℤ := 1

def FEATURE_HIVEL : ℤ := 2

def SNAP_RANGE : ℤ := 5

/-- `_Track.v2a`: `velocity / 127`, the normalized linear amplitude. -/
def v2a (velocity : ℤ) : ℚ := Rat.divInt velocity 127

/-- `_Track.x2v`: `max(0, min(127, round(x / self.v2x_scale)))` with
`v2x_scale = width / 127`.  The mouse coordinate `x` and the widget width
are integer pixel counts, so the quotient `x / (width/127)` is exactly the
fraction `(127 * x) / width`, rounded half-to-even by `rdiv`. -/
def x2v (width x : ℤ) : ℤ := max 0 (min 127 (rdiv (127 * x) width))

-- -----------------------------------------------------------------
-- gui/samples_widget.py : SampleTrack

/-- `Overlap = namedtuple('Overlap', ['lovel', 'hivel', 't1', 't2'])`.
The two track references are modelled by their indices in the widget's
track list. -/
structure Overlap where
  lovel : ℤ
  hivel : ℤ
  t1 : ℕ
  t2 : ℕ
deriving DecidableEq, Repr

/-- A `SampleTrack`: the sample it displays plus its accumulated overlaps. -/
structure SampleTrack where
  sample : StarterSample
  overlaps : List Overlap
deriving DecidableEq, Repr

/-- `SampleTrack.overlap`: window `[max(lovels), min(hivels)]`, an overlap
iff strictly non-degenerate. -/
def trackOverlap (self other : SampleTrack) (i j : ℕ) : Option Overlap :=
  let lovel := max other.sample.lovel self.sample.lovel
  let hivel := min other.sample.hivel self.sample.hivel
  if lovel < hivel then some ⟨lovel, hivel, i, j⟩ else none

/-- The branch logic of `SampleTrack.mouse_event` once the velocity is
known: move `lovel` when `v` is at or below it, `hivel` when `v` is at or
above it, otherwise the strictly nearer boundary (`hivel` on a tie, via the
strict `lodiff < hidiff` comparison).  Returns the updated sample and the
emitted feature. -/
def mouse_apply (s : StarterSample) (velocity : ℤ) : StarterSample × ℤ :=
  if velocity ≤ s.lovel then (setLovel s velocity, FEATURE_LOVEL)
  else if s.hivel ≤ velocity then (setHivel s velocity, FEATURE_HIVEL)
  else
    if |velocity - s.lovel| < |velocity - s.hivel| then (setLovel s velocity, FEATURE_LOVEL)
    else (setHivel s velocity, FEATURE_HIVEL)

-- -----------------------------------------------------------------
-- gui/samples_widget.py : SampleTrack.update_vtpoints (curve builder)

/-- `mid_overlap.lovel + round((mid_overlap.hivel - mid_overlap.lovel) / 2)`. -/
def center (m : Overlap) : ℤ := m.lovel + rdiv (m.hivel - m.lovel) 2

/-- `lo_overlap = self.overlaps.pop(0) if self.overlaps[0].lovel == self.lovel
else None`. -/
def popLo (lovel : ℤ) : List Overlap → Option Overlap × List Overlap
  | [] => (none, [])
  | first :: rest =>
    if first.lovel = lovel then (some first, rest) else (none, first :: rest)

/-- `hi_overlap = self.overlaps.pop(-1) if self.overlaps[-1].hivel ==
self.hivel else None` (with `hi_overlap = None` when no overlaps remain). -/
def popHi (hivel : ℤ) (l : List Overlap) : List Overlap × Option Overlap :=
  match l.getLast? with
  | none => ([], none)
  | some last => if last.hivel = hivel then (l.dropLast, some last) else (l, none)

/-- The point-building phase of `update_vtpoints`: low edge (0.0 at the
shared low boundary when a lo-overlap exists), three points per
mid-overlap (dipping to 0.0 at its center), high edge (0.0 at the shared
high boundary when a hi-overlap exists). -/
def buildPoints (lovel hivel : ℤ) (loOv hiOv : Option Overlap) (mids : List Overlap) :
    List Velcurve :=
  (match loOv with
   | some lo => [⟨lovel, 0⟩, ⟨lo.hivel, v2a lo.hivel⟩]
   | none => [⟨lovel, v2a lovel⟩])
  ++ mids.flatMap
      (fun m => [⟨m.lovel, v2a m.lovel⟩, ⟨center m, 0⟩, ⟨m.hivel, v2a m.hivel⟩])
  ++ (match hiOv with
      | some hi => [⟨hi.lovel, v2a hi.lovel⟩, ⟨hivel, 0⟩]
      | none => [⟨hivel, v2a hivel⟩])

/-- `SampleTrack.update_vtpoints` as a function of the range and the
accumulated overlaps: Python's stable `list.sort(key=lovel)` is modelled by
`List.insertionSort`; the two pops leave the mid-overlaps behind in
`self.overlaps`.  Returns (new `vtpoints`, remaining `overlaps`).  With no
overlaps the curve-point list is cleared. -/
def update_vtpoints_calc (lovel hivel : ℤ) (ovs : List Overlap) :
    List Velcurve × List Overlap :=
  match ovs with
  | [] => ([], [])
  | first :: rest =>
    let sorted := List.insertionSort (fun a b => a.lovel ≤ b.lovel) (first :: rest)
    let lopop := popLo lovel sorted
    let hipop := popHi hivel lopop.2
    (buildPoints lovel hivel lopop.1 hipop.2 hipop.1, hipop.1)

/-- `SampleTrack.update_vtpoints` on the track state: writes the computed
points through the `vtpoints` setter (marking the sample dirty). -/
def update_vtpoints (t : SampleTrack) : SampleTrack :=
  let res := update_vtpoints_calc t.sample.lovel t.sample.hivel t.overlaps
  { sample := setVtpoints t.sample res.1, overlaps := res.2 }

-- -----------------------------------------------------------------
-- gui/samples_widget.py : SamplesWidget

/-- `SamplesWidget.clear_overlaps`: every track's overlap list is reset. -/
def clear_overlaps (tracks : List SampleTrack) : List SampleTrack :=
  tracks.map (fun t => { t with overlaps := [] })

/-- The overlap of tracks `i` and `j` (when both indices are valid). -/
def pairOverlap (tracks : List SampleTrack) (i j : ℕ) : Option Overlap :=
  match tracks[i]?, tracks[j]? with
  | some ti, some tj => trackOverlap ti tj i j
  | _, _ => none

/-- All overlaps produced by `for t in combinations(self.tracks, 2)`, in
iteration order (`i < j`, `i` outermost). -/
def pairOverlaps (tracks : List SampleTrack) : List Overlap :=
  (List.range tracks.length).flatMap (fun i =>
    (List.range tracks.length).filterMap (fun j =>
      if i < j then pairOverlap tracks i j else none))

/-- `SamplesWidget.find_overlaps`: clear all overlap lists, append each
pairwise overlap to both participating tracks (in combination order), then
run `update_vtpoints` on every track. -/
def find_overlaps (tracks : List SampleTrack) : List SampleTrack :=
  let withOvs := (clear_overlaps tracks).mapIdx (fun i t =>
    { t with overlaps := (pairOverlaps tracks).filter (fun ov => ov.t1 = i ∨ ov.t2 = i) })
  withOvs.map update_vtpoints

/-- The widget state relevant to the core: the track list and the two
mutually exclusive mode checkboxes. -/
structure SamplesWidget where
  tracks : List SampleTrack
  snap : Bool
  crossfade : Bool
deriving DecidableEq, Repr

/-- The per-other-track body of the snap branch of
`SamplesWidget.slot_value_changed`: when the moved boundary of the source
sample lies within `SNAP_RANGE` of the other track's opposite boundary,
that boundary is forced to the moved value. -/
def snap_adjust (src : StarterSample) (feature : ℤ) (other : SampleTrack) : SampleTrack :=
  if feature = FEATURE_LOVEL then
    if |src.lovel - other.sample.hivel| ≤ SNAP_RANGE then
      { other with sample := setHivel other.sample src.lovel }
    else other
  else
    if |src.hivel - other.sample.lovel| ≤ SNAP_RANGE then
      { other with sample := setLovel other.sample src.hivel }
    else other

/-- `SamplesWidget.slot_value_changed` for the track at index `i` whose
sample is now `src`: in snap mode adjust every *other* track (the iteration
order of the `set` symmetric difference is irrelevant — each other track is
updated independently); in crossfade mode re-run `find_overlaps`. -/
def slot_value_changed (wdg : SamplesWidget) (i : ℕ) (src : StarterSample) (feature : ℤ) :
    SamplesWidget :=
  if wdg.snap then
    { wdg with tracks := wdg.tracks.mapIdx (fun j t => if j = i then t else snap_adjust src feature t) }
  else if wdg.crossfade then
    { wdg with tracks := find_overlaps wdg.tracks }
  else wdg

/-- One full mouse interaction on track `i`: `SampleTrack.mouse_event`
(convert the coordinate, move a boundary, emit `sig_value_changed`) followed
by the connected `SamplesWidget.slot_value_changed`. -/
def widget_mouse_event (wdg : SamplesWidget) (i : ℕ) (width x : ℤ) : SamplesWidget :=
  match wdg.tracks[i]? with
  | none => wdg
  | some t =>
    let velocity := x2v width x
    let res := mouse_apply t.sample velocity
    let wdg1 := { wdg with tracks := wdg.tracks.set i { t with sample := res.1 } }
    slot_value_changed wdg1 i res.1 res.2

/-- `SamplesWidget.slot_spread`: `spread = 127 / len(self.tracks)`;
`tracks[i].lovel = round(i * spread)`, `tracks[i].hivel = round((i+1) *
spread)` — the exact fractions `i*127/n` and `(i+1)*127/n` rounded
half-to-even — followed by `find_overlaps()`. -/
def slot_spread (wdg : SamplesWidget) : SamplesWidget :=
  let n : ℤ := wdg.tracks.length
  let assigned := wdg.tracks.mapIdx (fun i t =>
    { t with sample :=
        setHivel (setLovel t.sample (rdiv ((i : ℤ) * 127) n)) (rdiv (((i : ℤ) + 1) * 127) n) })
  { wdg with tracks := find_overlaps assigned }

/-- Checking the crossfade box (`slot_crossfade_state_change` with a truthy
state): `chk_snap.setChecked(0)` (whose handler with a falsy state does
nothing), then `find_overlaps()`. -/
def enable_crossfade (wdg : SamplesWidget) : SamplesWidget :=
  { tracks := find_overlaps wdg.tracks, snap := false, crossfade := true }

/-- Checking the snap box (`slot_snap_state_change` with a truthy state):
`chk_crossfade.setChecked(0)` — when crossfade was checked this fires
`slot_crossfade_state_change(0)`, which runs `clear_overlaps()` — then
`clear_overlaps()` again. -/
def enable_snap (wdg : SamplesWidget) : SamplesWidget :=
  { tracks := clear_overlaps wdg.tracks, snap := true, crossfade := false }

/-- The range invariant `0 <= lovel <= hivel <= 127` of a track's sample. -/
def trackInv (t : SampleTrack) : Prop :=
  0 ≤ t.sample.lovel ∧ t.sample.lovel ≤ t.sample.hivel ∧ t.sample.hivel ≤ 127

instance (t : SampleTrack) : Decidable (trackInv t) := by
  unfold trackInv
  infer_instance

-- -----------------------------------------------------------------
-- Helper lemmas

theorem x2v_bounds (width x : ℤ) : 0 ≤ x2v width x ∧ x2v width x ≤ 127 := by
  unfold x2v
  omega

theorem center_bounds (m : Overlap) (h : m.lovel ≤ m.hivel) :
    m.lovel ≤ center m ∧ center m ≤ m.hivel := by
  have h2 : (0 : ℤ) < 2 := by norm_num
  have hb := rdiv_half_bounds (m.hivel - m.lovel) 2 h2
  have hnn := rdiv_nonneg (m.hivel - m.lovel) 2 h2 (by omega)
  have hwQ : (0 : ℚ) ≤ ((m.hivel - m.lovel : ℤ) : ℚ) := by
    exact_mod_cast (by omega : (0 : ℤ) ≤ m.hivel - m.lovel)
  have hup : (rdiv (m.hivel - m.lovel) 2 : ℚ) ≤ ((m.hivel - m.lovel : ℤ) : ℚ) + 1 / 2 := by
    have := hb.2
    linarith
  have := int_le_of_le_add_half _ _ hup
  unfold center
  omega

theorem spread_bounds (i n : ℤ) (h0 : 0 ≤ i) (hin : i + 1 ≤ n) :
    0 ≤ rdiv (i * 127) n ∧ rdiv (i * 127) n ≤ rdiv ((i + 1) * 127) n ∧
      rdiv ((i + 1) * 127) n ≤ 127 := by
  have hn : (0 : ℤ) < n := by omega
  have hnQ : (0 : ℚ) < (n : ℚ) := by exact_mod_cast hn
  have hb1 := rdiv_half_bounds (i * 127) n hn
  have hb2 := rdiv_half_bounds ((i + 1) * 127) n hn
  refine ⟨rdiv_nonneg _ _ hn (by nlinarith), ?_, ?_⟩
  · have key : (((i + 1) * 127 : ℤ) : ℚ) / (n : ℚ) =
        ((i * 127 : ℤ) : ℚ) / (n : ℚ) + 127 / (n : ℚ) := by
      push_cast
      field_simp
      ring
    have h127 : (0 : ℚ) < 127 / (n : ℚ) := by positivity
    have hlt : (rdiv (i * 127) n : ℚ) < (rdiv ((i + 1) * 127) n : ℚ) + 1 := by
      have hu := hb1.2
      have hl := hb2.1
      rw [key] at hl
      linarith
    have : rdiv (i * 127) n < rdiv ((i + 1) * 127) n + 1 := by exact_mod_cast hlt
    omega
  · have hiQ : ((i + 1 : ℤ) : ℚ) ≤ (n : ℚ) := by exact_mod_cast hin
    have hle : (((i + 1) * 127 : ℤ) : ℚ) / (n : ℚ) ≤ 127 := by
      rw [div_le_iff₀ hnQ]
      push_cast
      push_cast at hiQ
      nlinarith
    exact int_le_of_le_add_half _ _ (by linarith [hb2.2])

theorem mouse_apply_inv (s : StarterSample) (v : ℤ)
    (hinv : 0 ≤ s.lovel ∧ s.lovel ≤ s.hivel ∧ s.hivel ≤ 127)
    (hv0 : 0 ≤ v) (hv1 : v ≤ 127) :
    0 ≤ (mouse_apply s v).1.lovel ∧
      (mouse_apply s v).1.lovel ≤ (mouse_apply s v).1.hivel ∧
      (mouse_apply s v).1.hivel ≤ 127 := by
  unfold mouse_apply setLovel setHivel
  split_ifs with h1 h2 h3 <;> dsimp only <;> omega

theorem find_overlaps_proj (ts : List SampleTrack) :
    (find_overlaps ts).map (fun t => (t.sample.lovel, t.sample.hivel)) =
      ts.map (fun t => (t.sample.lovel, t.sample.hivel)) := by
  apply List.ext_getElem?
  intro n
  simp only [List.getElem?_map, find_overlaps, clear_overlaps, List.getElem?_mapIdx,
    Option.map_map]
  cases h : ts[n]? <;> rfl

theorem find_overlaps_pair (ts : List SampleTrack) (n : ℕ) (t : SampleTrack)
    (hn : (find_overlaps ts)[n]? = some t) :
    ∃ u, ts[n]? = some u ∧ t.sample.lovel = u.sample.lovel ∧
      t.sample.hivel = u.sample.hivel := by
  have hp := congrArg (fun l => l[n]?) (find_overlaps_proj ts)
  simp only [List.getElem?_map, hn] at hp
  cases hu : ts[n]? with
  | none =>
    rw [hu] at hp
    simp at hp
  | some u =>
    rw [hu] at hp
    simp only [Option.map_some'] at hp
    have hpair := Option.some.inj hp
    exact ⟨u, rfl, congrArg Prod.fst hpair, congrArg Prod.snd hpair⟩

theorem find_overlaps_inv (ts : List SampleTrack) (h : ∀ t ∈ ts, trackInv t) :
    ∀ t ∈ find_overlaps ts, trackInv t := by
  intro t ht
  obtain ⟨n, hn⟩ := List.getElem?_of_mem ht
  obtain ⟨u, hu, h1, h2⟩ := find_overlaps_pair ts n t hn
  have := h u (List.getElem?_mem hu)
  unfold trackInv at this ⊢
  omega

theorem find_overlaps_length (ts : List SampleTrack) :
    (find_overlaps ts).length = ts.length := by
  simp [find_overlaps, clear_overlaps]

theorem slot_spread_length (wdg : SamplesWidget) :
    (slot_spread wdg).tracks.length = wdg.tracks.length := by
  simp [slot_spread, find_overlaps_length]

theorem slot_spread_pair (wdg : SamplesWidget) (n : ℕ) (t : SampleTrack)
    (hn : ((slot_spread wdg).tracks)[n]? = some t) :
    n < wdg.tracks.length ∧
      t.sample.lovel = rdiv ((n : ℤ) * 127) (wdg.tracks.length : ℤ) ∧
      t.sample.hivel = rdiv (((n : ℤ) + 1) * 127) (wdg.tracks.length : ℤ) := by
  simp only [slot_spread] at hn
  obtain ⟨u, hu, h1, h2⟩ := find_overlaps_pair _ n t hn
  rw [List.getElem?_mapIdx] at hu
  cases ho : wdg.tracks[n]? with
  | none =>
    rw [ho] at hu
    simp at hu
  | some orig =>
    rw [ho] at hu
    simp only [Option.map_some'] at hu
    have heq := Option.some.inj hu
    refine ⟨(List.getElem?_eq_some_iff.mp ho).1, ?_, ?_⟩
    · rw [h1, ← heq]
      rfl
    · rw [h2, ← heq]
      rfl

-- -----------------------------------------------------------------
-- C2 (corrected)

/-- C2 counterexample: with two overlapping ranges and crossfade active (so
curve points are present), enabling snap disables crossfade but leaves the
samples' curve-point lists non-empty — the claim that every sample ends with
empty `vtpoints` is false. -/
theorem C2_counterexample :
    let w0 : SamplesWidget :=
      ⟨[⟨⟨("a.wav"), 37, 0, 70, 0, [], false⟩, []⟩,
        ⟨⟨("b.wav"), 37, 50, 127, 0, [], false⟩, []⟩], false, false⟩
    let w2 := enable_snap (enable_crossfade w0)
    (enable_crossfade w0).crossfade = true ∧ w2.snap = true ∧ w2.crossfade = false ∧
      ¬ (∀ t ∈ w2.tracks, t.sample.vtpoints = []) := by
  decide

/-- C2 amended: enabling snap while crossfade is active disables crossfade
and clears every track's accumulated *overlaps* list, but leaves every
sample — in particular its curve-point (`vtpoints`) list — unchanged. -/
theorem C2_amended_theorem (wdg : SamplesWidget) (hcf : wdg.crossfade = true) :
    (enable_snap wdg).snap = true ∧ (enable_snap wdg).crossfade = false ∧
      (∀ t ∈ (enable_snap wdg).tracks, t.overlaps = []) ∧
      (enable_snap wdg).tracks.map (fun t => t.sample) = wdg.tracks.map (fun t => t.sample) := by
  refine ⟨rfl, rfl, ?_, ?_⟩
  · intro t ht
    obtain ⟨u, hu, rfl⟩ := List.mem_map.mp ht
    rfl
  · show (List.map _ wdg.tracks).map _ = _
    rw [List.map_map]
    rfl

theorem C2_witness :
    (enable_snap ⟨[⟨⟨("a.wav"), 37, 0, 70, 0, [⟨0, 0⟩], false⟩, []⟩], false, true⟩).snap = true ∧
      (enable_snap ⟨[⟨⟨("a.wav"), 37, 0, 70, 0, [⟨0, 0⟩], false⟩, []⟩], false, true⟩).crossfade = false :=
  ⟨(C2_amended_theorem ⟨[⟨⟨("a.wav"), 37, 0, 70, 0, [⟨0, 0⟩], false⟩, []⟩], false, true⟩ rfl).1,
   (C2_amended_theorem ⟨[⟨⟨("a.wav"), 37, 0, 70, 0, [⟨0, 0⟩], false⟩, []⟩], false, true⟩ rfl).2.1⟩

-- -----------------------------------------------------------------
-- C3 (confirmed)

/-- C3: for the two ranges `[0,70]` and `[50,127]`, overlap detection gives
the window `[50,70]`, and the curve builder produces exactly
`[(0, 0), (50, 50/127), (70, 0)]` for the first range and
`[(50, 0), (70, 70/127), (127, 1)]` for the second — each range has
amplitude `0.0` at the boundary it shares with its neighbour. -/
theorem C3_theorem :
    let trackA : SampleTrack := ⟨⟨("a.wav"), 37, 0, 70, 0, [], false⟩, []⟩
    let trackB : SampleTrack := ⟨⟨("b.wav"), 37, 50, 127, 0, [], false⟩, []⟩
    pairOverlaps [trackA, trackB] = [⟨50, 70, 0, 1⟩] ∧
      (find_overlaps [trackA, trackB]).map (fun t => t.sample.vtpoints) =
        [[⟨0, 0⟩, ⟨50, (50 : ℚ) / 127⟩, ⟨70, 0⟩],
         [⟨50, 0⟩, ⟨70, (70 : ℚ) / 127⟩, ⟨127, 1⟩]] := by
  have h50 : (50 : ℚ) / 127 = Rat.divInt 50 127 := by
    rw [Rat.divInt_eq_div]
    norm_num
  have h70 : (70 : ℚ) / 127 = Rat.divInt 70 127 := by
    rw [Rat.divInt_eq_div]
    norm_num
  simp only [h50, h70]
  decide

-- -----------------------------------------------------------------
-- C8 (confirmed)

/-- C8: `add_sample` raises exactly when the sample's (absolutized) path is
already present, and on that error the instrument is unchanged;
`remove_sample` raises exactly when the given path string is not a key of
the samples dict, and on that error the instrument is unchanged. -/
theorem C8_theorem (cwd : String) (inst : StarterInstrument) (path : String) :
    ((add_sample cwd inst path).2 = Except.error PyError.runtimeError ↔
      has_sample cwd inst path = true) ∧
    ((add_sample cwd inst path).2 = Except.error PyError.runtimeError →
      (add_sample cwd inst path).1 = inst) ∧
    ((remove_sample inst path).2 = some PyError.indexError ↔
      dictContains inst.samples path = false) ∧
    ((remove_sample inst path).2 = some PyError.indexError →
      (remove_sample inst path).1 = inst) := by
  unfold add_sample remove_sample has_sample
  by_cases h1 : dictContains inst.samples (abspath cwd path) = true <;>
    by_cases h2 : dictContains inst.samples path = true <;>
      simp [h1, h2]

theorem C8_witness :
    ((add_sample ("/h") (mkStarterInstrument 38) ("a.wav")).2 =
        Except.error PyError.runtimeError ↔
      has_sample ("/h") (mkStarterInstrument 38) ("a.wav") = true) ∧
    ((remove_sample (mkStarterInstrument 38) ("a.wav")).2 = some PyError.indexError ↔
      dictContains (mkStarterInstrument 38).samples ("a.wav") = false) :=
  ⟨(C8_theorem ("/h") (mkStarterInstrument 38) ("a.wav")).1,
   (C8_theorem ("/h") (mkStarterInstrument 38) ("a.wav")).2.2.1⟩

-- -----------------------------------------------------------------
-- C9 (confirmed)

/-- C9: on any kit with a non-empty instruments dict (the real constructor
always installs the fixed 47-pitch dict), `samples()` (consumed),
`is_dirty()` and `clear_dirty()` all raise `AttributeError`, because
iterating the dict yields the integer pitch keys, not the instruments. -/
theorem C9_theorem (kit : StarterKit) (h : kit.instruments ≠ []) :
    kit_samples kit = Except.error PyError.attributeError ∧
      kit_is_dirty kit = Except.error PyError.attributeError ∧
      kit_clear_dirty kit = Except.error PyError.attributeError := by
  obtain ⟨a, l, hk⟩ : ∃ a l, kit.instruments = a :: l := by
    cases hins : kit.instruments with
    | nil => exact absurd hins h
    | cons a l => exact ⟨a, l, rfl⟩
  have hs : kit_samples kit = Except.error PyError.attributeError := by
    unfold kit_samples
    rw [hk]
    rfl
  refine ⟨hs, ?_, ?_⟩
  · unfold kit_is_dirty
    rw [hs]
  · unfold kit_clear_dirty
    rw [hs]

theorem C9_witness :
    kit_samples ⟨[(37, mkStarterInstrument 37)]⟩ = Except.error PyError.attributeError ∧
      kit_is_dirty ⟨[(37, mkStarterInstrument 37)]⟩ = Except.error PyError.attributeError ∧
      kit_clear_dirty ⟨[(37, mkStarterInstrument 37)]⟩ = Except.error PyError.attributeError :=
  C9_theorem ⟨[(37, mkStarterInstrument 37)]⟩ (by decide)

-- -----------------------------------------------------------------
-- C1 (corrected)

theorem snap_adjust_bounds (src : StarterSample) (feature : ℤ) (other : SampleTrack)
    (hsrc : 0 ≤ src.lovel ∧ src.lovel ≤ src.hivel ∧ src.hivel ≤ 127)
    (hoth : 0 ≤ other.sample.lovel ∧ other.sample.lovel ≤ 127 ∧
      0 ≤ other.sample.hivel ∧ other.sample.hivel ≤ 127) :
    0 ≤ (snap_adjust src feature other).sample.lovel ∧
      (snap_adjust src feature other).sample.lovel ≤ 127 ∧
      0 ≤ (snap_adjust src feature other).sample.hivel ∧
      (snap_adjust src feature other).sample.hivel ≤ 127 := by
  unfold snap_adjust setLovel setHivel
  split_ifs <;> (try dsimp only) <;> omega

/-- C1 counterexample: all ranges satisfy the invariant, snap mode is on;
a mouse interaction that moves the first track's `lovel` to 58 snaps the
second track's `hivel` (62, within `SNAP_RANGE`) down to 58, below that
track's `lovel` of 60 — the invariant `lovel <= hivel` is violated. -/
theorem C1_counterexample :
    let wdg : SamplesWidget :=
      ⟨[⟨⟨("a.wav"), 37, 0, 127, 0, [], false⟩, []⟩,
        ⟨⟨("b.wav"), 37, 60, 62, 0, [], false⟩, []⟩], true, false⟩
    (∀ t ∈ wdg.tracks, trackInv t) ∧
      (widget_mouse_event wdg 0 127 58).tracks.map
        (fun t => (t.sample.lovel, t.sample.hivel)) = [(58, 127), (60, 58)] ∧
      ¬ (∀ t ∈ (widget_mouse_event wdg 0 127 58).tracks, trackInv t) := by
  decide

/-- C1 amended: every range still satisfies `0 <= lovel <= hivel <= 127`
after a mouse interaction with snap mode off, after any Spread operation,
and after any Curve Builder run; after a mouse interaction with snap mode
on, every `lovel` and `hivel` still lies in `[0,127]` and the interacted
range itself satisfies the invariant, but a snapped neighbour whose
opposite boundary lies within `SNAP_RANGE` on the wrong side may be left
with `lovel > hivel`. -/
theorem C1_amended_theorem (wdg : SamplesWidget) (i : ℕ) (width x : ℤ)
    (hinv : ∀ t ∈ wdg.tracks, trackInv t) :
    (wdg.snap = false → ∀ t ∈ (widget_mouse_event wdg i width x).tracks, trackInv t) ∧
    (∀ t ∈ (slot_spread wdg).tracks, trackInv t) ∧
    (∀ t ∈ find_overlaps wdg.tracks, trackInv t) ∧
    (∀ t ∈ (widget_mouse_event wdg i width x).tracks,
      0 ≤ t.sample.lovel ∧ t.sample.lovel ≤ 127 ∧
      0 ≤ t.sample.hivel ∧ t.sample.hivel ≤ 127) ∧
    (∀ t, ((widget_mouse_event wdg i width x).tracks)[i]? = some t → trackInv t) := by
  have hspread : ∀ t ∈ (slot_spread wdg).tracks, trackInv t := by
    intro t ht
    obtain ⟨n, hn⟩ := List.getElem?_of_mem ht
    obtain ⟨hlt, h1, h2⟩ := slot_spread_pair wdg n t hn
    have hn1 : (n : ℤ) + 1 ≤ (wdg.tracks.length : ℤ) := by exact_mod_cast hlt
    have hsb := spread_bounds (n : ℤ) (wdg.tracks.length : ℤ) (by positivity) hn1
    unfold trackInv
    omega
  have hfo : ∀ t ∈ find_overlaps wdg.tracks, trackInv t := find_overlaps_inv wdg.tracks hinv
  cases hti : wdg.tracks[i]? with
  | none =>
    have hw : widget_mouse_event wdg i width x = wdg := by
      unfold widget_mouse_event
      rw [hti]
    rw [hw]
    refine ⟨fun _ => hinv, hspread, hfo, ?_, ?_⟩
    · intro t ht
      have := hinv t ht
      unfold trackInv at this
      omega
    · intro t ht
      rw [hti] at ht
      cases ht
  | some t0 =>
    have hv := x2v_bounds width x
    have ht0inv : trackInv t0 := hinv t0 (List.getElem?_mem hti)
    unfold trackInv at ht0inv
    have hres := mouse_apply_inv t0.sample (x2v width x) ht0inv hv.1 hv.2
    have hilt : i < wdg.tracks.length := (List.getElem?_eq_some_iff.mp hti).1
    have hw : (widget_mouse_event wdg i width x).tracks =
        (slot_value_changed
          (⟨wdg.tracks.set i ⟨(mouse_apply t0.sample (x2v width x)).1, t0.overlaps⟩,
            wdg.snap, wdg.crossfade⟩ : SamplesWidget)
          i (mouse_apply t0.sample (x2v width x)).1
          (mouse_apply t0.sample (x2v width x)).2).tracks := by
      unfold widget_mouse_event
      rw [hti]
    have htracks1 : ∀ t ∈ wdg.tracks.set i
        ⟨(mouse_apply t0.sample (x2v width x)).1, t0.overlaps⟩, trackInv t := by
      intro t ht
      rcases List.mem_or_eq_of_mem_set ht with h | h
      · exact hinv t h
      · rw [h]
        unfold trackInv
        exact hres
    refine ⟨?_, hspread, hfo, ?_, ?_⟩
    · -- snap off: the set-updated list, possibly after find_overlaps
      intro hsnap t ht
      rw [hw] at ht
      unfold slot_value_changed at ht
      rw [hsnap] at ht
      simp only [Bool.false_eq_true, if_false] at ht
      by_cases hcf : wdg.crossfade = true
      · rw [hcf] at ht
        simp only [if_true] at ht
        exact find_overlaps_inv _ htracks1 t ht
      · rw [Bool.not_eq_true] at hcf
        rw [hcf] at ht
        simp only [Bool.false_eq_true, if_false] at ht
        exact htracks1 t ht
    · -- bounds, any mode
      intro t ht
      rw [hw] at ht
      unfold slot_value_changed at ht
      by_cases hsnap : wdg.snap = true
      · rw [hsnap] at ht
        simp only [if_true] at ht
        obtain ⟨n, hn⟩ := List.getElem?_of_mem ht
        rw [List.getElem?_mapIdx] at hn
        cases hu : (wdg.tracks.set i
            ⟨(mouse_apply t0.sample (x2v width x)).1, t0.overlaps⟩)[n]? with
        | none =>
          rw [hu] at hn
          cases hn
        | some u =>
          rw [hu] at hn
          simp only [Option.map_some'] at hn
          have huinv := htracks1 u (List.getElem?_mem hu)
          unfold trackInv at huinv
          have := Option.some.inj hn
          by_cases hni : n = i
          · rw [if_pos hni] at this
            rw [← this]
            omega
          · rw [if_neg hni] at this
            rw [← this]
            exact snap_adjust_bounds _ _ u hres (by omega)
      · rw [Bool.not_eq_true] at hsnap
        rw [hsnap] at ht
        simp only [Bool.false_eq_true, if_false] at ht
        have hbase : ∀ u, trackInv u →
            0 ≤ u.sample.lovel ∧ u.sample.lovel ≤ 127 ∧
            0 ≤ u.sample.hivel ∧ u.sample.hivel ≤ 127 := by
          intro u hu
          unfold trackInv at hu
          omega
        by_cases hcf : wdg.crossfade = true
        · rw [hcf] at ht
          simp only [if_true] at ht
          exact hbase t (find_overlaps_inv _ htracks1 t ht)
        · rw [Bool.not_eq_true] at hcf
          rw [hcf] at ht
          simp only [Bool.false_eq_true, if_false] at ht
          exact hbase t (htracks1 t ht)
    · -- the interacted track keeps the full invariant
      intro t ht
      rw [hw] at ht
      unfold slot_value_changed at ht
      have hset : (wdg.tracks.set i
          ⟨(mouse_apply t0.sample (x2v width x)).1, t0.overlaps⟩)[i]? =
          some ⟨(mouse_apply t0.sample (x2v width x)).1, t0.overlaps⟩ :=
        List.getElem?_set_self hilt
      by_cases hsnap : wdg.snap = true
      · rw [hsnap] at ht
        simp only [if_true] at ht
        rw [List.getElem?_mapIdx, hset] at ht
        simp only [Option.map_some', if_pos rfl] at ht
        have := Option.some.inj ht
        rw [← this]
        unfold trackInv
        exact hres
      · rw [Bool.not_eq_true] at hsnap
        rw [hsnap] at ht
        simp only [Bool.false_eq_true, if_false] at ht
        by_cases hcf : wdg.crossfade = true
        · rw [hcf] at ht
          simp only [if_true] at ht
          obtain ⟨u, hu, h1, h2⟩ := find_overlaps_pair _ i t ht
          rw [hset] at hu
          have := Option.some.inj hu
          unfold trackInv
          rw [h1, h2, ← this]
          exact hres
        · rw [Bool.not_eq_true] at hcf
          rw [hcf] at ht
          simp only [Bool.false_eq_true, if_false] at ht
          rw [hset] at ht
          have := Option.some.inj ht
          rw [← this]
          unfold trackInv
          exact hres

theorem C1_witness :
    trackInv ⟨⟨("a.wav"), 37, 10, 58, 0, [], true⟩, []⟩ :=
  (C1_amended_theorem
      ⟨[⟨⟨("a.wav"), 37, 10, 100, 0, [], false⟩, []⟩], false, false⟩ 0 127 58
      (by decide)).1 rfl
    ⟨⟨("a.wav"), 37, 10, 58, 0, [], true⟩, []⟩ (by decide)

-- -----------------------------------------------------------------
-- C5 (confirmed)

/-- C5: the spread operation assigns, in stored order,
`lovel_i = round(i * 127/N)` and `hivel_i = round((i+1) * 127/N)` (exact
real rounding, characterized by `isRoundHalfEven`); in particular with
`N = 4` the boundaries are `[0, 32, 64, 95, 127]`. -/
theorem C5_theorem (wdg : SamplesWidget) (hN : 0 < wdg.tracks.length) :
    (∀ (i : ℕ) (t : SampleTrack), ((slot_spread wdg).tracks)[i]? = some t →
      t.sample.lovel = rdiv ((i : ℤ) * 127) (wdg.tracks.length : ℤ) ∧
      t.sample.hivel = rdiv (((i : ℤ) + 1) * 127) (wdg.tracks.length : ℤ) ∧
      isRoundHalfEven ((((i : ℤ) * 127 : ℤ) : ℚ) / ((wdg.tracks.length : ℤ) : ℚ))
        t.sample.lovel ∧
      isRoundHalfEven (((((i : ℤ) + 1) * 127 : ℤ) : ℚ) / ((wdg.tracks.length : ℤ) : ℚ))
        t.sample.hivel) ∧
    (wdg.tracks.length = 4 →
      (slot_spread wdg).tracks.map (fun t => t.sample.lovel) = [0, 32, 64, 95] ∧
      (slot_spread wdg).tracks.map (fun t => t.sample.hivel) = [32, 64, 95, 127]) := by
  have hNZ : (0 : ℤ) < (wdg.tracks.length : ℤ) := by exact_mod_cast hN
  constructor
  · intro i t ht
    obtain ⟨hi, h1, h2⟩ := slot_spread_pair wdg i t ht
    refine ⟨h1, h2, ?_, ?_⟩
    · rw [h1]
      exact rdiv_isRoundHalfEven _ _ hNZ
    · rw [h2]
      exact rdiv_isRoundHalfEven _ _ hNZ
  · intro h4
    have hlen : (slot_spread wdg).tracks.length = 4 := by rw [slot_spread_length, h4]
    have hv : ∀ n : ℕ, n < 4 → ∃ t, ((slot_spread wdg).tracks)[n]? = some t := by
      intro n hn
      have hlt : n < (slot_spread wdg).tracks.length := by omega
      exact ⟨_, List.getElem?_eq_some_iff.mpr ⟨hlt, rfl⟩⟩
    have key : ∀ n : ℕ, ∀ t, ((slot_spread wdg).tracks)[n]? = some t →
        t.sample.lovel = rdiv ((n : ℤ) * 127) 4 ∧
        t.sample.hivel = rdiv (((n : ℤ) + 1) * 127) 4 := by
      intro n t ht
      have h := slot_spread_pair wdg n t ht
      rw [h4] at h
      exact ⟨h.2.1, h.2.2⟩
    have hpair : (slot_spread wdg).tracks.map (fun t => (t.sample.lovel, t.sample.hivel)) =
        [((0 : ℤ), (32 : ℤ)), (32, 64), (64, 95), (95, 127)] := by
      apply List.ext_getElem?
      intro n
      rw [List.getElem?_map]
      by_cases hn : n < 4
      · obtain ⟨t, ht⟩ := hv n hn
        have hk := key n t ht
        rw [ht]
        interval_cases n <;> rw [Option.map_some', hk.1, hk.2] <;> decide
      · rw [List.getElem?_eq_none_iff.mpr (by omega : (slot_spread wdg).tracks.length ≤ n),
          List.getElem?_eq_none_iff.mpr (by simp; omega)]
        rfl
    constructor
    · have h2 := congrArg (List.map Prod.fst) hpair
      rw [List.map_map] at h2
      simpa using h2
    · have h2 := congrArg (List.map Prod.snd) hpair
      rw [List.map_map] at h2
      simpa using h2

theorem C5_witness :
    (slot_spread ⟨[⟨⟨("a.wav"), 37, 0, 127, 0, [], false⟩, []⟩,
        ⟨⟨("b.wav"), 37, 10, 20, 0, [], false⟩, []⟩,
        ⟨⟨("c.wav"), 37, 5, 6, 0, [], false⟩, []⟩,
        ⟨⟨("d.wav"), 37, 0, 0, 0, [], false⟩, []⟩], false, false⟩).tracks.map
      (fun t => t.sample.lovel) = [0, 32, 64, 95] ∧
    (slot_spread ⟨[⟨⟨("a.wav"), 37, 0, 127, 0, [], false⟩, []⟩,
        ⟨⟨("b.wav"), 37, 10, 20, 0, [], false⟩, []⟩,
        ⟨⟨("c.wav"), 37, 5, 6, 0, [], false⟩, []⟩,
        ⟨⟨("d.wav"), 37, 0, 0, 0, [], false⟩, []⟩], false, false⟩).tracks.map
      (fun t => t.sample.hivel) = [32, 64, 95, 127] :=
  (C5_theorem ⟨[⟨⟨("a.wav"), 37, 0, 127, 0, [], false⟩, []⟩,
      ⟨⟨("b.wav"), 37, 10, 20, 0, [], false⟩, []⟩,
      ⟨⟨("c.wav"), 37, 5, 6, 0, [], false⟩, []⟩,
      ⟨⟨("d.wav"), 37, 0, 0, 0, [], false⟩, []⟩], false, false⟩ (by decide)).2 rfl

-- -----------------------------------------------------------------
-- C7 (confirmed)

/-- C7: the boundary editor converts the raw coordinate to
`v = clamp(round(x / scale), 0, 127)` with `scale = width/127` (any
coordinate, also outside the axis, yields a value in `[0,127]` — no error),
then moves `lovel` when `v <= lovel`, `hivel` when `v >= hivel`, and
otherwise the numerically closer boundary, `hivel` on a distance tie. -/
theorem C7_theorem (width x : ℤ) (hw : 0 < width) (s : StarterSample)
    (hs : s.lovel ≤ s.hivel) :
    (∀ z : ℤ, isRoundHalfEven ((x : ℚ) / ((width : ℚ) / 127)) z →
      x2v width x = max 0 (min 127 z)) ∧
    0 ≤ x2v width x ∧ x2v width x ≤ 127 ∧
    (x2v width x ≤ s.lovel →
      mouse_apply s (x2v width x) = (setLovel s (x2v width x), FEATURE_LOVEL)) ∧
    (s.lovel < x2v width x → s.hivel ≤ x2v width x →
      mouse_apply s (x2v width x) = (setHivel s (x2v width x), FEATURE_HIVEL)) ∧
    (s.lovel < x2v width x → x2v width x < s.hivel →
      |x2v width x - s.lovel| < |x2v width x - s.hivel| →
      mouse_apply s (x2v width x) = (setLovel s (x2v width x), FEATURE_LOVEL)) ∧
    (s.lovel < x2v width x → x2v width x < s.hivel →
      |x2v width x - s.hivel| ≤ |x2v width x - s.lovel| →
      mouse_apply s (x2v width x) = (setHivel s (x2v width x), FEATURE_HIVEL)) := by
  refine ⟨?_, (x2v_bounds width x).1, (x2v_bounds width x).2, ?_, ?_, ?_, ?_⟩
  · intro z hz
    have hρ := rdiv_isRoundHalfEven (127 * x) width hw
    have heq : ((127 * x : ℤ) : ℚ) / ((width : ℤ) : ℚ) = (x : ℚ) / ((width : ℚ) / 127) := by
      have hwne : ((width : ℤ) : ℚ) ≠ 0 := by
        exact_mod_cast hw.ne'
      push_cast
      field_simp
      ring
    rw [heq] at hρ
    have hzeq := isRoundHalfEven_unique _ z _ hz hρ
    rw [hzeq]
    rfl
  · intro h1
    unfold mouse_apply
    rw [if_pos h1]
  · intro h1 h2
    unfold mouse_apply
    rw [if_neg (by omega), if_pos h2]
  · intro h1 h2 h3
    unfold mouse_apply
    rw [if_neg (by omega), if_neg (by omega), if_pos h3]
  · intro h1 h2 h3
    unfold mouse_apply
    rw [if_neg (by omega), if_neg (by omega), if_neg (not_lt.mpr h3)]

theorem C7_witness :
    0 ≤ x2v 224 1000 ∧ x2v 224 1000 ≤ 127 ∧
      mouse_apply ⟨("/s.wav"), 37, 10, 100, 0, [], false⟩ (x2v 224 1000) =
        (setHivel ⟨("/s.wav"), 37, 10, 100, 0, [], false⟩ (x2v 224 1000), FEATURE_HIVEL) := by
  have h := C7_theorem 224 1000 (by decide) ⟨("/s.wav"), 37, 10, 100, 0, [], false⟩ (by decide)
  exact ⟨h.2.1, h.2.2.1, h.2.2.2.2.1 (by decide) (by decide)⟩

-- -----------------------------------------------------------------
-- C10 (confirmed)

/-- C10: `add_sample` stores under `abspath(path)` and `has_sample` tests
`abspath(path)`, but `remove_sample` tests the given string verbatim: for
the relative path `a.wav` (cwd `/home/u`), `has_sample` answers true while
`remove_sample` raises `IndexError` and leaves the instrument unchanged;
only the absolute path removes the sample. -/
theorem C10_theorem :
    isAbs ("a.wav") = false ∧
    ((add_sample ("/home/u") (mkStarterInstrument 38) ("a.wav")).1.samples.map
      (fun e => e.1)) = [("/home/u/a.wav")] ∧
    has_sample ("/home/u") ((add_sample ("/home/u") (mkStarterInstrument 38) ("a.wav")).1)
      ("a.wav") = true ∧
    (remove_sample ((add_sample ("/home/u") (mkStarterInstrument 38) ("a.wav")).1)
      ("a.wav")).2 = some PyError.indexError ∧
    (remove_sample ((add_sample ("/home/u") (mkStarterInstrument 38) ("a.wav")).1)
      ("a.wav")).1 = (add_sample ("/home/u") (mkStarterInstrument 38) ("a.wav")).1 ∧
    (remove_sample ((add_sample ("/home/u") (mkStarterInstrument 38) ("a.wav")).1)
      ("/home/u/a.wav")).2 = none ∧
    (remove_sample ((add_sample ("/home/u") (mkStarterInstrument 38) ("a.wav")).1)
      ("/home/u/a.wav")).1.samples = [] := by
  decide

-- -----------------------------------------------------------------
-- C6 (confirmed)

theorem ampLine_filter_self (l : List Velcurve) :
    (l.map ampLine).filter (headIs 'a') = l.map ampLine := by
  induction l with
  | nil => rfl
  | cons p t ih =>
    rw [List.map_cons, List.filter_cons, show headIs 'a' (ampLine p) = true from rfl]
    simp only [if_true]
    rw [ih]

theorem ampLine_filter_v (l : List Velcurve) :
    (l.map ampLine).filter (headIs 'v') = [] := by
  induction l with
  | nil => rfl
  | cons p t ih =>
    rw [List.map_cons, List.filter_cons, show headIs 'v' (ampLine p) = false from rfl]
    simp only [Bool.false_eq_true, if_false]
    exact ih

theorem ampLine_filter_l (l : List Velcurve) :
    (l.map ampLine).filter (headIs 'l') = [] := by
  induction l with
  | nil => rfl
  | cons p t ih =>
    rw [List.map_cons, List.filter_cons, show headIs 'l' (ampLine p) = false from rfl]
    simp only [Bool.false_eq_true, if_false]
    exact ih

theorem ampLine_filter_h (l : List Velcurve) :
    (l.map ampLine).filter (headIs 'h') = [] := by
  induction l with
  | nil => rfl
  | cons p t ih =>
    rw [List.map_cons, List.filter_cons, show headIs 'h' (ampLine p) = false from rfl]
    simp only [Bool.false_eq_true, if_false]
    exact ih

theorem write_filter_v (s : StarterSample) :
    (sample_write s).filter (headIs 'v') =
      if s.volume ≠ 0 then [("volume=" ++ fmtFixed 2 s.volume ++ "\n")] else [] := by
  unfold sample_write
  simp only [List.filter_append]
  rw [ampLine_filter_v]
  split_ifs <;> rfl

theorem write_filter_l (s : StarterSample) :
    (sample_write s).filter (headIs 'l') =
      if s.lovel > 0 then [("lovel=" ++ s.lovel.repr ++ "\n")] else [] := by
  unfold sample_write
  simp only [List.filter_append]
  rw [ampLine_filter_l]
  split_ifs <;> rfl

theorem write_filter_h (s : StarterSample) :
    (sample_write s).filter (headIs 'h') =
      if s.hivel < 127 then [("hivel=" ++ s.hivel.repr ++ "\n")] else [] := by
  unfold sample_write
  simp only [List.filter_append]
  rw [ampLine_filter_h]
  split_ifs <;> rfl

/-- C6: the serialized region block always contains the `sample=` line; it
contains the 2-decimal `volume=` line iff `volume != 0`, the `lovel=` line
iff `lovel > 0`, the `hivel=` line iff `hivel < 127`, and (as the sublist
of `amp_velcurve_`-headed lines) exactly one curve-point line per stored
point, in order; a sample with all defaults emits only the `sample=` line
inside its region block. -/
theorem C6_theorem (s : StarterSample) :
    ("sample=" ++ s.path ++ "\n") ∈ sample_write s ∧
    ((("volume=" ++ fmtFixed 2 s.volume ++ "\n") ∈ sample_write s) ↔ s.volume ≠ 0) ∧
    ((("lovel=" ++ s.lovel.repr ++ "\n") ∈ sample_write s) ↔ s.lovel > 0) ∧
    ((("hivel=" ++ s.hivel.repr ++ "\n") ∈ sample_write s) ↔ s.hivel < 127) ∧
    ((sample_write s).filter (headIs 'a') = s.vtpoints.map ampLine) ∧
    (s.lovel = 0 → s.hivel = 127 → s.volume = 0 → s.vtpoints = [] →
      sample_write s = [("<region>\n"), ("sample=" ++ s.path ++ "\n"), ("\n")]) := by
  refine ⟨by simp [sample_write], ?_, ?_, ?_, ?_, ?_⟩
  · constructor
    · intro hmem
      by_contra hvol
      have hl : ("volume=" ++ fmtFixed 2 s.volume ++ "\n") ∈
          (sample_write s).filter (headIs 'v') :=
        List.mem_filter.mpr ⟨hmem, rfl⟩
      rw [write_filter_v, if_neg (fun hc => hc hvol)] at hl
      exact absurd hl (List.not_mem_nil _)
    · intro hvol
      have hl : ("volume=" ++ fmtFixed 2 s.volume ++ "\n") ∈
          (sample_write s).filter (headIs 'v') := by
        rw [write_filter_v, if_pos hvol]
        exact List.mem_singleton_self _
      exact (List.mem_filter.mp hl).1
  · constructor
    · intro hmem
      by_contra hlo
      have hl : ("lovel=" ++ s.lovel.repr ++ "\n") ∈
          (sample_write s).filter (headIs 'l') :=
        List.mem_filter.mpr ⟨hmem, rfl⟩
      rw [write_filter_l, if_neg hlo] at hl
      exact absurd hl (List.not_mem_nil _)
    · intro hlo
      have hl : ("lovel=" ++ s.lovel.repr ++ "\n") ∈
          (sample_write s).filter (headIs 'l') := by
        rw [write_filter_l, if_pos hlo]
        exact List.mem_singleton_self _
      exact (List.mem_filter.mp hl).1
  · constructor
    · intro hmem
      by_contra hhi
      have hl : ("hivel=" ++ s.hivel.repr ++ "\n") ∈
          (sample_write s).filter (headIs 'h') :=
        List.mem_filter.mpr ⟨hmem, rfl⟩
      rw [write_filter_h, if_neg hhi] at hl
      exact absurd hl (List.not_mem_nil _)
    · intro hhi
      have hl : ("hivel=" ++ s.hivel.repr ++ "\n") ∈
          (sample_write s).filter (headIs 'h') := by
        rw [write_filter_h, if_pos hhi]
        exact List.mem_singleton_self _
      exact (List.mem_filter.mp hl).1
  · unfold sample_write
    simp only [List.filter_append]
    rw [ampLine_filter_self]
    split_ifs <;>
      simp only
        [show List.filter (headIs 'a') [("<region>\n"), ("sample=" ++ s.path ++ "\n")] = []
          from rfl,
         show List.filter (headIs 'a') [("volume=" ++ fmtFixed 2 s.volume ++ "\n")] = []
          from rfl,
         show List.filter (headIs 'a') [("lovel=" ++ s.lovel.repr ++ "\n")] = [] from rfl,
         show List.filter (headIs 'a') [("hivel=" ++ s.hivel.repr ++ "\n")] = [] from rfl,
         show List.filter (headIs 'a') [("\n")] = [] from rfl,
         List.filter_nil, List.nil_append, List.append_nil]
  · intro h1 h2 h3 h4
    simp [sample_write, h1, h2, h3, h4]

theorem C6_witness :
    sample_write ⟨("/kit/s.wav"), 37, 0, 127, 0, [], false⟩ =
      [("<region>\n"), ("sample=/kit/s.wav\n"), ("\n")] := by
  have h := (C6_theorem ⟨("/kit/s.wav"), 37, 0, 127, 0, [], false⟩).2.2.2.2.2 rfl rfl rfl rfl
  rw [h]
  decide

-- -----------------------------------------------------------------
-- C4 (corrected)

theorem chain_mids (z : ℤ) (rest : List ℤ) (mids : List Overlap) :
    ∀ a : ℤ,
      (∀ m ∈ mids, m.lovel ≤ m.hivel ∧ m.hivel ≤ z) →
      List.Chain' (fun u v => u.hivel ≤ v.lovel) mids →
      (∀ m, mids.head? = some m → a ≤ m.lovel) →
      a ≤ z →
      List.Chain (fun p q => p ≤ q) z rest →
      List.Chain (fun p q => p ≤ q) a
        ((mids.flatMap (fun m => [m.lovel, center m, m.hivel])) ++ z :: rest) := by
  induction mids with
  | nil =>
    intro a _ _ _ haz hz
    simp only [List.flatMap_nil, List.nil_append]
    exact List.chain_cons.mpr ⟨haz, hz⟩
  | cons m t ih =>
    intro a hb hch hhead haz hz
    rw [List.flatMap_cons, List.append_assoc]
    have hm := hb m (List.mem_cons_self m t)
    have hc := center_bounds m hm.1
    simp only [List.cons_append, List.nil_append]
    refine List.chain_cons.mpr ⟨hhead m rfl, List.chain_cons.mpr ⟨hc.1,
      List.chain_cons.mpr ⟨hc.2, ?_⟩⟩⟩
    apply ih m.hivel
    · intro m' hm'
      exact hb m' (List.mem_cons_of_mem m hm')
    · exact hch.tail
    · intro m' hm'
      cases t with
      | nil => cases hm'
      | cons x xs =>
        rw [List.head?_cons] at hm'
        injection hm' with hx
        subst hx
        exact (List.chain'_cons.mp hch).1
    · exact hm.2
    · exact hz

theorem buildPoints_spec (lovel hivel : ℤ) (loOv hiOv : Option Overlap) (mids : List Overlap)
    (hlh : lovel ≤ hivel)
    (hmids : ∀ m ∈ mids, lovel ≤ m.lovel ∧ m.lovel < m.hivel ∧ m.hivel ≤ hivel)
    (hchainm : List.Chain' (fun u v => u.hivel ≤ v.lovel) mids)
    (hloF : ∀ lo, loOv = some lo → lo.lovel = lovel ∧ lo.lovel < lo.hivel ∧ lo.hivel ≤ hivel)
    (hloM : ∀ lo, loOv = some lo → ∀ m ∈ mids, lo.hivel ≤ m.lovel)
    (hhiF : ∀ hi, hiOv = some hi → hi.hivel = hivel ∧ hi.lovel < hi.hivel ∧ lovel ≤ hi.lovel)
    (hhiM : ∀ hi, hiOv = some hi → ∀ m ∈ mids, m.hivel ≤ hi.lovel)
    (hlohi : ∀ lo hi, loOv = some lo → hiOv = some hi → lo.hivel ≤ hi.lovel) :
    List.Sorted (fun a b => a ≤ b)
      ((buildPoints lovel hivel loOv hiOv mids).map (fun p => p.velocity)) ∧
    ((buildPoints lovel hivel loOv hiOv mids).map (fun p => p.velocity)).head? = some lovel ∧
    ((buildPoints lovel hivel loOv hiOv mids).map (fun p => p.velocity)).getLast? =
      some hivel := by
  cases loOv with
  | none =>
    cases hiOv with
    | none =>
      have hv : (buildPoints lovel hivel none none mids).map (fun p => p.velocity) =
          [lovel] ++ mids.flatMap (fun m => [m.lovel, center m, m.hivel]) ++ [hivel] := by
        unfold buildPoints
        rw [List.map_append, List.map_append, List.map_flatMap]
        rfl
      rw [hv]
      have hch := chain_mids hivel [] mids lovel
        (fun m hm => ⟨(hmids m hm).2.1.le, (hmids m hm).2.2⟩)
        hchainm (fun m hm => (hmids m (List.mem_of_mem_head? hm)).1) hlh List.Chain.nil
      refine ⟨?_, rfl, by rw [List.getLast?_append]; rfl⟩
      have hform : [lovel] ++ mids.flatMap (fun m => [m.lovel, center m, m.hivel]) ++ [hivel] =
          lovel :: (mids.flatMap (fun m => [m.lovel, center m, m.hivel]) ++ hivel :: []) := by
        simp
      rw [hform]
      exact List.chain'_iff_pairwise.mp hch
    | some hi =>
      have hhi := hhiF hi rfl
      have hv : (buildPoints lovel hivel none (some hi) mids).map (fun p => p.velocity) =
          [lovel] ++ mids.flatMap (fun m => [m.lovel, center m, m.hivel]) ++
            [hi.lovel, hivel] := by
        unfold buildPoints
        rw [List.map_append, List.map_append, List.map_flatMap]
        rfl
      rw [hv]
      have hch := chain_mids hi.lovel [hivel] mids lovel
        (fun m hm => ⟨(hmids m hm).2.1.le, hhiM hi rfl m hm⟩)
        hchainm (fun m hm => (hmids m (List.mem_of_mem_head? hm)).1) hhi.2.2
        (List.chain_cons.mpr ⟨by omega, List.Chain.nil⟩)
      refine ⟨?_, rfl, by rw [List.getLast?_append]; rfl⟩
      have hform : [lovel] ++ mids.flatMap (fun m => [m.lovel, center m, m.hivel]) ++
          [hi.lovel, hivel] =
          lovel :: (mids.flatMap (fun m => [m.lovel, center m, m.hivel]) ++
            hi.lovel :: [hivel]) := by
        simp
      rw [hform]
      exact List.chain'_iff_pairwise.mp hch
  | some lo =>
    have hlo := hloF lo rfl
    cases hiOv with
    | none =>
      have hv : (buildPoints lovel hivel (some lo) none mids).map (fun p => p.velocity) =
          [lovel, lo.hivel] ++ mids.flatMap (fun m => [m.lovel, center m, m.hivel]) ++
            [hivel] := by
        unfold buildPoints
        rw [List.map_append, List.map_append, List.map_flatMap]
        rfl
      rw [hv]
      have hch := chain_mids hivel [] mids lo.hivel
        (fun m hm => ⟨(hmids m hm).2.1.le, (hmids m hm).2.2⟩)
        hchainm (fun m hm => hloM lo rfl m (List.mem_of_mem_head? hm)) hlo.2.2
        List.Chain.nil
      refine ⟨?_, rfl, by rw [List.getLast?_append]; rfl⟩
      have hform : [lovel, lo.hivel] ++
          mids.flatMap (fun m => [m.lovel, center m, m.hivel]) ++ [hivel] =
          lovel :: lo.hivel ::
            (mids.flatMap (fun m => [m.lovel, center m, m.hivel]) ++ hivel :: []) := by
        simp
      rw [hform]
      exact List.chain'_iff_pairwise.mp
        (List.chain_cons.mpr ⟨by omega, hch⟩)
    | some hi =>
      have hhi := hhiF hi rfl
      have hv : (buildPoints lovel hivel (some lo) (some hi) mids).map (fun p => p.velocity) =
          [lovel, lo.hivel] ++ mids.flatMap (fun m => [m.lovel, center m, m.hivel]) ++
            [hi.lovel, hivel] := by
        unfold buildPoints
        rw [List.map_append, List.map_append, List.map_flatMap]
        rfl
      rw [hv]
      have hch := chain_mids hi.lovel [hivel] mids lo.hivel
        (fun m hm => ⟨(hmids m hm).2.1.le, hhiM hi rfl m hm⟩)
        hchainm (fun m hm => hloM lo rfl m (List.mem_of_mem_head? hm))
        (hlohi lo hi rfl rfl)
        (List.chain_cons.mpr ⟨by omega, List.Chain.nil⟩)
      refine ⟨?_, rfl, by rw [List.getLast?_append]; rfl⟩
      have hform : [lovel, lo.hivel] ++
          mids.flatMap (fun m => [m.lovel, center m, m.hivel]) ++ [hi.lovel, hivel] =
          lovel :: lo.hivel ::
            (mids.flatMap (fun m => [m.lovel, center m, m.hivel]) ++
              hi.lovel :: [hivel]) := by
        simp
      rw [hform]
      exact List.chain'_iff_pairwise.mp
        (List.chain_cons.mpr ⟨by omega, hch⟩)

/-- C4 counterexample: for the range `[0,127]` with the two sibling
windows `[10,60]` and `[20,70]` — both contained in the range, both of
positive width — the builder emits the velocities
`[0, 10, 35, 60, 20, 45, 70, 127]`, which are not sorted ascending. -/
theorem C4_counterexample :
    let ovs : List Overlap := [⟨10, 60, 0, 1⟩, ⟨20, 70, 0, 2⟩]
    (0 : ℤ) ≤ 127 ∧
      (∀ ov ∈ ovs, (0 : ℤ) ≤ ov.lovel ∧ ov.lovel < ov.hivel ∧ ov.hivel ≤ 127) ∧
      ((update_vtpoints_calc 0 127 ovs).1.map (fun p => p.velocity) =
        [0, 10, 35, 60, 20, 45, 70, 127]) ∧
      ¬ List.Sorted (fun a b => a ≤ b)
        ((update_vtpoints_calc 0 127 ovs).1.map (fun p => p.velocity)) := by
  decide

/-- C4 amended: for every range with `lovel <= hivel` and every list of
overlaps whose windows are contained in the range, have strictly positive
width, *and are pairwise disjoint*, the produced curve-point list (when the
overlap list is non-empty, hence the point list is non-empty) is sorted
ascending by velocity and its first and last points lie at the range's
`lovel` and `hivel`. -/
theorem C4_amended_theorem (lovel hivel : ℤ) (ovs : List Overlap)
    (hlh : lovel ≤ hivel)
    (hcont : ∀ ov ∈ ovs, lovel ≤ ov.lovel ∧ ov.lovel < ov.hivel ∧ ov.hivel ≤ hivel)
    (hdisj : List.Pairwise (fun a b => a.hivel ≤ b.lovel ∨ b.hivel ≤ a.lovel) ovs)
    (hne : ovs ≠ []) :
    List.Sorted (fun a b => a ≤ b)
      ((update_vtpoints_calc lovel hivel ovs).1.map (fun p => p.velocity)) ∧
    ((update_vtpoints_calc lovel hivel ovs).1.map (fun p => p.velocity)).head? =
      some lovel ∧
    ((update_vtpoints_calc lovel hivel ovs).1.map (fun p => p.velocity)).getLast? =
      some hivel := by
  obtain ⟨f0, r0, rfl⟩ : ∃ a l, ovs = a :: l := by
    cases ovs with
    | nil => exact absurd rfl hne
    | cons a l => exact ⟨a, l, rfl⟩
  haveI : IsTotal Overlap (fun a b => a.lovel ≤ b.lovel) := ⟨fun a b => le_total _ _⟩
  haveI : IsTrans Overlap (fun a b => a.lovel ≤ b.lovel) :=
    ⟨fun a b c h1 h2 => le_trans h1 h2⟩
  set sorted := List.insertionSort (fun a b => a.lovel ≤ b.lovel) (f0 :: r0) with hsdef
  have hperm : sorted.Perm (f0 :: r0) := List.perm_insertionSort _ _
  have hsorted : List.Pairwise (fun a b : Overlap => a.lovel ≤ b.lovel) sorted :=
    List.sorted_insertionSort _ _
  have hcontS : ∀ ov ∈ sorted, lovel ≤ ov.lovel ∧ ov.lovel < ov.hivel ∧ ov.hivel ≤ hivel :=
    fun ov h => hcont ov (hperm.mem_iff.mp h)
  have hdisjS : List.Pairwise (fun a b => a.hivel ≤ b.lovel ∨ b.hivel ≤ a.lovel) sorted :=
    hdisj.perm hperm.symm (fun h => h.symm)
  have hchainS : List.Pairwise (fun a b => a.hivel ≤ b.lovel) sorted := by
    refine List.Pairwise.imp_of_mem ?_ (hsorted.and hdisjS)
    intro a b ha hb hab
    rcases hab.2 with h | h
    · exact h
    · have hwb := hcontS b hb
      have h1 := hab.1
      omega
  have hsne : sorted ≠ [] := by
    intro h
    have hlen := hperm.length_eq
    rw [h] at hlen
    simp at hlen
  obtain ⟨s0, srest, hs⟩ : ∃ a l, sorted = a :: l := by
    cases hsort : sorted with
    | nil => exact absurd hsort hsne
    | cons a l => exact ⟨a, l, rfl⟩
  have hcalc : (update_vtpoints_calc lovel hivel (f0 :: r0)).1 =
      buildPoints lovel hivel (popLo lovel sorted).1
        (popHi hivel (popLo lovel sorted).2).2 (popHi hivel (popLo lovel sorted).2).1 := rfl
  rw [hcalc, hs]
  rw [hs] at hchainS hcontS
  have hchain0 : ∀ b ∈ srest, s0.hivel ≤ b.lovel := (List.pairwise_cons.mp hchainS).1
  have hchainR : List.Pairwise (fun a b => a.hivel ≤ b.lovel) srest :=
    (List.pairwise_cons.mp hchainS).2
  have hcont0 := hcontS s0 (List.mem_cons_self s0 srest)
  have hcontR : ∀ ov ∈ srest, lovel ≤ ov.lovel ∧ ov.lovel < ov.hivel ∧ ov.hivel ≤ hivel :=
    fun ov h => hcontS ov (List.mem_cons_of_mem _ h)
  by_cases hlo0 : s0.lovel = lovel
  · have hpopLo : popLo lovel (s0 :: srest) = (some s0, srest) := by
      simp [popLo, hlo0]
    rw [hpopLo]
    rcases hgl : srest.getLast? with _ | last
    · have hsrest : srest = [] := List.getLast?_eq_none_iff.mp hgl
      subst hsrest
      rw [show popHi hivel ([] : List Overlap) = ([], none) from rfl]
      exact buildPoints_spec lovel hivel (some s0) none [] hlh
        (fun m hm => nomatch hm)
        List.chain'_nil
        (fun lo h => by injection h with h; subst h; exact ⟨hlo0, hcont0.2.1, hcont0.2.2⟩)
        (fun lo h m hm => nomatch hm)
        (fun hi h => nomatch h)
        (fun hi h => nomatch h)
        (fun lo hi h1 h2 => nomatch h2)
    · have hlastmem : last ∈ srest := List.mem_of_mem_getLast? hgl
      by_cases hlast : last.hivel = hivel
      · have hpopHi : popHi hivel srest = (srest.dropLast, some last) := by
          simp [popHi, hgl, hlast]
        rw [hpopHi]
        have hdecomp : srest.dropLast ++ [last] = srest :=
          List.dropLast_append_getLast? last hgl
        have hdropP : List.Pairwise (fun a b => a.hivel ≤ b.lovel)
            (srest.dropLast ++ [last]) := by rw [hdecomp]; exact hchainR
        have hmidlast : ∀ m ∈ srest.dropLast, m.hivel ≤ last.lovel := by
          intro m hm
          exact (List.pairwise_append.mp hdropP).2.2 m hm last (List.mem_singleton_self _)
        exact buildPoints_spec lovel hivel (some s0) (some last) srest.dropLast hlh
          (fun m hm => hcontR m ((List.dropLast_sublist srest).subset hm))
          ((hchainR.sublist (List.dropLast_sublist srest)).chain')
          (fun lo h => by injection h with h; subst h; exact ⟨hlo0, hcont0.2.1, hcont0.2.2⟩)
          (fun lo h m hm => by
            injection h with h
            subst h
            exact hchain0 m ((List.dropLast_sublist srest).subset hm))
          (fun hi h => by
            injection h with h
            subst h
            exact ⟨hlast, (hcontR last hlastmem).2.1, (hcontR last hlastmem).1⟩)
          (fun hi h m hm => by injection h with h; subst h; exact hmidlast m hm)
          (fun lo hi h1 h2 => by
            injection h1 with h1
            injection h2 with h2
            subst h1
            subst h2
            exact hchain0 last hlastmem)
      · have hpopHi : popHi hivel srest = (srest, none) := by
          simp [popHi, hgl, hlast]
        rw [hpopHi]
        exact buildPoints_spec lovel hivel (some s0) none srest hlh
          hcontR
          hchainR.chain'
          (fun lo h => by injection h with h; subst h; exact ⟨hlo0, hcont0.2.1, hcont0.2.2⟩)
          (fun lo h m hm => by injection h with h; subst h; exact hchain0 m hm)
          (fun hi h => nomatch h)
          (fun hi h => nomatch h)
          (fun lo hi h1 h2 => nomatch h2)
  · have hpopLo : popLo lovel (s0 :: srest) = (none, s0 :: srest) := by
      simp [popLo, hlo0]
    rw [hpopLo]
    rcases hgl : (s0 :: srest).getLast? with _ | last
    · exact absurd (List.getLast?_eq_none_iff.mp hgl) (by simp)
    · have hlastmem : last ∈ s0 :: srest := List.mem_of_mem_getLast? hgl
      by_cases hlast : last.hivel = hivel
      · have hpopHi : popHi hivel (s0 :: srest) = ((s0 :: srest).dropLast, some last) := by
          simp [popHi, hgl, hlast]
        rw [hpopHi]
        have hdecomp : (s0 :: srest).dropLast ++ [last] = s0 :: srest :=
          List.dropLast_append_getLast? last hgl
        have hdropP : List.Pairwise (fun a b => a.hivel ≤ b.lovel)
            ((s0 :: srest).dropLast ++ [last]) := by rw [hdecomp]; exact hchainS
        have hmidlast : ∀ m ∈ (s0 :: srest).dropLast, m.hivel ≤ last.lovel := by
          intro m hm
          exact (List.pairwise_append.mp hdropP).2.2 m hm last (List.mem_singleton_self _)
        exact buildPoints_spec lovel hivel none (some last) (s0 :: srest).dropLast hlh
          (fun m hm => hcontS m ((List.dropLast_sublist (s0 :: srest)).subset hm))
          ((hchainS.sublist (List.dropLast_sublist (s0 :: srest))).chain')
          (fun lo h => nomatch h)
          (fun lo h => nomatch h)
          (fun hi h => by
            injection h with h
            subst h
            exact ⟨hlast, (hcontS last hlastmem).2.1, (hcontS last hlastmem).1⟩)
          (fun hi h m hm => by injection h with h; subst h; exact hmidlast m hm)
          (fun lo hi h1 h2 => nomatch h1)
      · have hpopHi : popHi hivel (s0 :: srest) = (s0 :: srest, none) := by
          simp [popHi, hgl, hlast]
        rw [hpopHi]
        exact buildPoints_spec lovel hivel none none (s0 :: srest) hlh
          hcontS
          hchainS.chain'
          (fun lo h => nomatch h)
          (fun lo h => nomatch h)
          (fun hi h => nomatch h)
          (fun hi h => nomatch h)
          (fun lo hi h1 h2 => nomatch h1)

theorem C4_witness :
    List.Sorted (fun a b => a ≤ b)
      ((update_vtpoints_calc 0 127 [⟨0, 50, 0, 1⟩]).1.map (fun p => p.velocity)) ∧
    ((update_vtpoints_calc 0 127 [⟨0, 50, 0, 1⟩]).1.map (fun p => p.velocity)).head? =
      some 0 ∧
    ((update_vtpoints_calc 0 127 [⟨0, 50, 0, 1⟩]).1.map (fun p => p.velocity)).getLast? =
      some 127 :=
  C4_amended_theorem 0 127 [⟨0, 50, 0, 1⟩] (by decide) (by decide) (by decide) (by decide)

end Kitstarter
